import Mathlib

/-!
Verification development for the PartInventory repository.

Shallow embedding of the annotation-processing scripts:
  * src/utils/fix_train_annotations.py   (COCO annotation validator / fixer)
  * src/utils/convert_cvat_to_rle.py     (CVAT polygon -> RLE converter)
  * src/src/CVAT/create_archive_dataset.py      (split_large_dataset)
  * src/src/CVAT/create_coco_from_agreements.py (process_agreement_file_to_coco)
  * src/src/Classcification/backend/main.py     (GET /api/tasks/ handler)

Modelling conventions: JSON numbers are exact rationals (Rat) or integers
(Int); Python dicts with a fixed expected key set become structures whose
optional keys are Option fields; a missing key is the value none.  Python
value equality on such dicts is structure equality.  The run-length
encoding payload produced by the pycocotools C library is abstracted: only
its documented shape (a dict carrying a size equal to the mask dimensions
and a counts that is a string after utf-8 decoding) is modelled; the
opaque byte payload is replaced by a deterministic placeholder string.
Floating point is modelled exactly over Rat (no NaN / Inf / rounding),
matching ordinary JSON inputs.
-/

/-- A COCO segmentation value as the scripts see it after json.load:
either an RLE dict (with a size list and a string counts), a list of
polygons (list of coordinate lists), or a single flat coordinate list. -/
inductive Seg where
  | rle (size : List Int) (counts : String)
  | polys (ps : List (List Rat))
  | flat (cs : List Rat)
  deriving DecidableEq, Repr

/-- A bbox value: a flat list of numbers or a (non-empty) nested list of
lists, the two shapes distinguished by the scripts. The empty Python list
is represented as flat []. -/
inductive BVal where
  | flat (xs : List Rat)
  | nested (xss : List (List Rat))
  deriving DecidableEq, Repr

/-- Placeholder for the RLE counts payload computed by
pycocotools.mask.encode / frPyObjects; the scripts only rely on it being
a string, which is all that is modelled. -/
def rleCounts (height width : Int) : String :=
  toString height ++ "x" ++ toString width

/-! ## fix_train_annotations.py -/

/-- An annotation record as validated by fix_train_annotations.main:
the fields the script reads. A missing key is none. -/
structure FAnn where
  id : Int
  image_id : Option Int
  segmentation : Option Seg
  bbox : Option BVal
  area : Option Rat
  iscrowd : Option Int
  deriving DecidableEq, Repr

/-- An image record: the fields read when building image_dims. -/
structure FImg where
  id : Int
  height : Int
  width : Int
  deriving DecidableEq, Repr

/-- The image_dims dict of fix_train_annotations.main: image id to
(height, width); built by iteration, so a later duplicate id wins. -/
def dimsLookup (imgs : List FImg) (iid : Option Int) : Option (Int × Int) :=
  match iid with
  | none => none
  | some i => (imgs.reverse.find? (fun im => im.id == i)).map (fun im => (im.height, im.width))

/-- fix_train_annotations.is_valid_rle_segmentation: a dict with a
2-element size list and a string counts (counts is a String by type
here, so only the size length is left to check). -/
def isValidRleSeg : Seg → Bool
  | .rle size _ => size.length == 2
  | _ => false

/-- Python isinstance(seg, list) on a segmentation value. -/
def segIsList : Seg → Bool
  | .polys _ => true
  | .flat _ => true
  | .rle _ _ => false

/-- fix_train_annotations.polygon_to_rle: pycocotools.mask.frPyObjects
followed by merge, returning a dict with size [height, width] and a
decoded string counts; exceptions yield None.  frPyObjects raises on an
empty list (indexing pyobj[0]), on a flat list of numbers (len of a
number), and on a first polygon of fewer than 4 coordinates (unsupported
input type); a first polygon of exactly 4 coordinates is routed to the
bbox decoder, which needs every member to have 4 entries. -/
def fixPolygonToRle (seg : Seg) (height width : Int) : Option Seg :=
  match seg with
  | .polys ps =>
    match ps with
    | [] => none
    | p :: _ =>
      if p.length = 4 then
        (if ps.all (fun q => q.length == 4) then some (.rle [height, width] (rleCounts height width)) else none)
      else if 4 < p.length then some (.rle [height, width] (rleCounts height width))
      else none
  | .flat _ => none
  | .rle _ _ => none

/-- The dimension test inside fix_train_annotations.is_valid_bbox:
a 4-element numeric list passes iff width and height are positive
(the NaN / Inf test is vacuous over Rat). -/
def checkDims (xs : List Rat) : Option (List Rat) :=
  match xs with
  | [x, y, w, h] => if 0 < w ∧ 0 < h then some [x, y, w, h] else none
  | _ => none

/-- fix_train_annotations.is_valid_bbox: flatten a nested bbox by taking
its first element, require exactly 4 numeric entries with positive width
and height; returns the fixed flat bbox on success (float conversion is
the identity over Rat). -/
def isValidBbox : BVal → Option (List Rat)
  | .flat xs => if xs.length = 4 then checkDims xs else none
  | .nested [] => none
  | .nested (x :: _) => if x.length = 4 then checkDims x else none

/-- Check 1 of the validation loop of fix_train_annotations.main: the
annotation's segmentation must be missing (invalid), already valid RLE,
or a list convertible to RLE given the owning image's dimensions;
returns the validity flag and the (possibly converted) value. -/
def segCheck (imgs : List FImg) (ann : FAnn) : Bool × Option Seg :=
  match ann.segmentation with
  | none => (false, none)
  | some s =>
    if isValidRleSeg s then (true, some s)
    else if segIsList s then
      match dimsLookup imgs ann.image_id with
      | none => (false, some s)
      | some (h, w) =>
        match fixPolygonToRle s h w with
        | some r => (true, some r)
        | none => (false, some s)
    else (false, some s)

/-- Check 2 of the validation loop: is_valid_bbox, with the fix applied
only when the fixed bbox differs from the stored one. -/
def bboxCheck (ann : FAnn) : Bool × Option BVal :=
  match ann.bbox with
  | none => (false, none)
  | some b =>
    match isValidBbox b with
    | none => (false, some b)
    | some fixed =>
      if b = BVal.flat fixed then (true, some b) else (true, some (.flat fixed))

/-- Check 3 of the validation loop: is_valid_area (a present, strictly
positive number). -/
def areaCheck (ann : FAnn) : Bool :=
  match ann.area with
  | none => false
  | some a => decide (0 < a)

/-- Check 4 of the validation loop: is_valid_iscrowd (a present value
equal to 0 or 1). -/
def crowdCheck (ann : FAnn) : Bool :=
  match ann.iscrowd with
  | none => false
  | some v => v == 0 || v == 1

/-- One iteration of the validation loop in fix_train_annotations.main
over a single annotation: run the four checks, keep the (possibly
repaired) annotation when all pass, and drop it otherwise. -/
def processAnn (imgs : List FImg) (ann : FAnn) : Option FAnn :=
  if (segCheck imgs ann).1 && (bboxCheck ann).1 && areaCheck ann && crowdCheck ann then
    some { ann with segmentation := (segCheck imgs ann).2, bbox := (bboxCheck ann).2 }
  else none

/-- The re-indexing loop of fix_train_annotations.main:
enumerate(valid_annotations, start=n) assigning ann['id'] = new_id. -/
def renumberFrom (n : Int) : List FAnn → List FAnn
  | [] => []
  | a :: as => { a with id := n } :: renumberFrom (n + 1) as

/-- fix_train_annotations.main on the annotations list: keep the
annotations that pass validation (with their repairs) and re-index ids
sequentially from 1. -/
def fixAnnotations (imgs : List FImg) (anns : List FAnn) : List FAnn :=
  renumberFrom 1 (anns.filterMap (processAnn imgs))

/-! ## convert_cvat_to_rle.py -/

/-- An annotation record as convert_cvat_to_rle sees it: the keys the
script reads or writes.  Python dict equality (used by list.index) is
structure equality; the model covers inputs whose annotation objects
carry exactly these keys. -/
structure CAnn where
  id : Int
  image_id : Int
  category_id : Int
  segmentation : Option Seg
  category_name : Option String
  instance_id : Option Int
  deriving DecidableEq, Repr

/-- An image record: the fields read by convert_cvat_to_rle. -/
structure CImg where
  id : Int
  width : Int
  height : Int
  deriving DecidableEq, Repr

/-- A category record: the fields read by convert_cvat_to_rle. -/
structure CCat where
  id : Int
  name : String
  deriving DecidableEq, Repr

/-- A Python exception escaping convert_cvat_to_rle. -/
inductive PyErr where
  | keyError (key : String)
  deriving DecidableEq, Repr

/-- The image_id_to_info dict comprehension (a later duplicate id wins). -/
def lookupImage (imgs : List CImg) (i : Int) : Option CImg :=
  imgs.reverse.find? (fun im => im.id == i)

/-- category_id_to_name dict plus the .get(category_id, 'Unknown') read. -/
def lookupCatName (cats : List CCat) (i : Int) : String :=
  match cats.reverse.find? (fun c => c.id == i) with
  | some c => c.name
  | none => "Unknown"

/-- Python truthiness of the segmentation value (if segmentation:):
an absent key or an empty list is falsy, an RLE dict (which always has
its two keys) is truthy. -/
def segTruthy : Option Seg → Bool
  | none => false
  | some (.polys ps) => !ps.isEmpty
  | some (.flat cs) => !cs.isEmpty
  | some (.rle _ _) => true

/-- convert_cvat_to_rle.polygon_to_rle: rasterize the polygons with PIL
onto a (width, height) image and encode the resulting (height, width)
mask, so a successful result has size [height, width] and a decoded
string counts.  Failure cases from the source: an empty list returns
None up front; in the multi-polygon branch a polygon of odd length at
least 6 raises IndexError while building the point list (shorter
polygons are skipped); in the flat branch an odd length raises
IndexError and fewer than two points makes PIL raise; every exception
is caught and yields None. -/
def cvatPolygonToRle (seg : Seg) (width height : Int) : Option Seg :=
  match seg with
  | .polys ps =>
    if ps.isEmpty then none
    else if ps.all (fun p => decide (p.length < 6) || p.length % 2 == 0) then
      some (.rle [height, width] (rleCounts height width))
    else none
  | .flat cs =>
    if cs.isEmpty then none
    else if cs.length % 2 == 0 && decide (4 ≤ cs.length) then
      some (.rle [height, width] (rleCounts height width))
    else none
  | .rle _ _ => none

/-- Which statistics counter the segmentation branch of the main loop
bumps for one annotation. -/
inductive SegTag where
  | converted
  | skipped
  | errored
  deriving DecidableEq, Repr

/-- The segmentation branch of the main loop of convert_cvat_to_rle for
one annotation: keep an existing RLE (skipped), convert a polygon
(converted, or errored when conversion fails, keeping the old value),
and count an error for a missing or empty segmentation. -/
def segStep (s : Option Seg) (img : CImg) : Option Seg × SegTag :=
  if segTruthy s then
    match s with
    | some (.rle sz c) => (some (.rle sz c), .skipped)
    | some (.polys ps) =>
      match cvatPolygonToRle (.polys ps) img.width img.height with
      | some r => (some r, .converted)
      | none => (some (.polys ps), .errored)
    | some (.flat cs) =>
      match cvatPolygonToRle (.flat cs) img.width img.height with
      | some r => (some r, .converted)
      | none => (some (.flat cs), .errored)
    | none => (none, .errored)
  else (s, .errored)

/-- Python list.index: position of the first element equal to a
(the call sites only use it when a is a member). -/
def pyIndex {α : Type} [DecidableEq α] : List α → α → Nat
  | [], _ => 0
  | x :: xs, a => if x = a then 0 else pyIndex xs a + 1

/-- Final state of the main loop of convert_cvat_to_rle: the (mutated)
annotations list and the three statistics counters. -/
structure CState where
  anns : List CAnn
  converted : Nat
  skipped : Nat
  errors : Nat
  deriving DecidableEq, Repr

/-- The body of one image-found iteration of the convert_cvat_to_rle
main loop.  The Python loop mutates the annotation dicts in place while
the grouping table aliases them, so the list state at that moment is
the processed prefix (done), the current annotation, and the untouched
suffix (rest); the group of the current annotation is recovered from
that state by filtering on (image_id, category_id), which are never
mutated, and list.index runs over the group's current values after
category_name has been written; instance_id is its position plus one,
and the segmentation branch runs last. -/
def cvatStepAnn (cats : List CCat) (done rest : List CAnn)
    (a : CAnn) (img : CImg) : CAnn × SegTag :=
  let a1 : CAnn := { a with category_name := some (lookupCatName cats a.category_id) }
  let cur := done ++ a1 :: rest
  let grp := cur.filter (fun x => x.image_id == a.image_id && x.category_id == a.category_id)
  let p := pyIndex grp a1
  let a2 : CAnn := { a1 with instance_id := some ((p : Int) + 1) }
  let res := segStep a2.segmentation img
  ({ a2 with segmentation := res.1 }, res.2)

/-- The main loop of convert_cvat_to_rle over the annotations list,
one annotation at a time.  When the owning image is missing, the
diagnostic print dereferences ann['category_name'] and
ann['instance_id'] before either key has been assigned, so a KeyError
escapes unless the input already carried both keys; otherwise the
error counter is bumped and the annotation is left unchanged. -/
def cvatGo (imgs : List CImg) (cats : List CCat) (done : List CAnn)
    (converted skipped errors : Nat) : List CAnn → Except PyErr CState
  | [] => .ok ⟨done, converted, skipped, errors⟩
  | a :: rest =>
    match lookupImage imgs a.image_id with
    | none =>
      match a.category_name, a.instance_id with
      | none, _ => .error (.keyError "category_name")
      | some _, none => .error (.keyError "instance_id")
      | some _, some _ => cvatGo imgs cats (done ++ [a]) converted skipped (errors + 1) rest
    | some img =>
      let r := cvatStepAnn cats done rest a img
      match r.2 with
      | .converted => cvatGo imgs cats (done ++ [r.1]) (converted + 1) skipped errors rest
      | .skipped => cvatGo imgs cats (done ++ [r.1]) converted (skipped + 1) errors rest
      | .errored => cvatGo imgs cats (done ++ [r.1]) converted skipped (errors + 1) rest

/-- convert_cvat_to_rle on one parsed file: run the main loop from the
start (outcome is the final annotations list and counters, or the
escaping exception). -/
def cvatRun (imgs : List CImg) (cats : List CCat) (anns : List CAnn) : Except PyErr CState :=
  cvatGo imgs cats [] 0 0 0 anns

/-- The annotations list written by convert_cvat_to_rle when the run
does not raise (and [] as a default otherwise). -/
def cvatAnnsD (imgs : List CImg) (cats : List CCat) (anns : List CAnn) : List CAnn :=
  match cvatRun imgs cats anns with
  | .ok st => st.anns
  | .error _ => []

/-- The (image_id, category_id) grouping key of convert_cvat_to_rle. -/
def cvatKey (im c : Int) (a : CAnn) : Bool :=
  a.image_id == im && a.category_id == c

/-- The instance_id values 1..n, in order. -/
def instRange (n : Nat) : List (Option Int) :=
  (List.range n).map (fun i : Nat => some ((i : Int) + 1))

/-- The segmentation value an annotation holds after its iteration of
the convert_cvat_to_rle main loop (unchanged when its image is absent). -/
def cvatSegResult (imgs : List CImg) (a : CAnn) : Option Seg :=
  match lookupImage imgs a.image_id with
  | none => a.segmentation
  | some img => (segStep a.segmentation img).1

/-! ## create_archive_dataset.py -/

/-- An image entry: the only field split_large_dataset reads is id. -/
structure ArchImg where
  id : Int
  deriving DecidableEq, Repr

/-- An annotation entry: split_large_dataset reads ann.get('image_id'). -/
structure ArchAnn where
  image_id : Option Int
  deriving DecidableEq, Repr

/-- The membership test ann.get('image_id') in chunk_image_ids (None is
never a member of a set of image ids). -/
def annInChunk (ids : List Int) (a : ArchAnn) : Bool :=
  match a.image_id with
  | some x => ids.contains x
  | none => false

/-- create_archive_dataset.split_large_dataset: at most max_items
images per chunk; a dataset within the limit is returned whole (with
all annotations and chunk index None), a larger one is sliced and each
chunk keeps the annotations whose image_id is among its images. -/
def splitLargeDataset (splitImages : List ArchImg) (splitAnnotations : List ArchAnn)
    (maxItems : Nat) : List (List ArchImg × List ArchAnn × Option Nat) :=
  if splitImages.length ≤ maxItems then [(splitImages, splitAnnotations, none)]
  else
    let numChunks := (splitImages.length + maxItems - 1) / maxItems
    (List.range numChunks).map (fun i =>
      let chunkImages := (splitImages.drop (i * maxItems)).take maxItems
      let chunkImageIds := chunkImages.map (fun im => im.id)
      let chunkAnnotations := splitAnnotations.filter (annInChunk chunkImageIds)
      (chunkImages, chunkAnnotations, some i))

/-! ## create_coco_from_agreements.py -/

/-- One agreement record (the fields process_agreement_file_to_coco
reads; a missing key is none). -/
structure Agreement where
  consensus_result : Option Int
  image_id : Option Int
  annotation_id : Option Int
  task_type : Option String
  split : Option String
  deriving DecidableEq, Repr

/-- One entry of the per-split image mapping tables. -/
structure ImgMapEntry where
  file_name : String
  height : Option Int
  width : Option Int
  deriving DecidableEq, Repr

/-- The per-split image_mappings tables (keys train / val / test). -/
structure Mappings where
  train : List (Int × ImgMapEntry)
  valT : List (Int × ImgMapEntry)
  test : List (Int × ImgMapEntry)
  deriving Repr

/-- An original annotation from the per-split annotation_mappings. -/
structure OrigAnn where
  bbox : Option BVal
  area : Option Rat
  segmentation : Option Seg
  deriving DecidableEq, Repr

/-- The per-split annotation_mappings tables. -/
structure AnnMaps where
  train : List (Int × OrigAnn)
  valT : List (Int × OrigAnn)
  test : List (Int × OrigAnn)
  deriving Repr

/-- Lookup in a dict built by insertion (a later duplicate key wins). -/
def lookupMap {α : Type} (l : List (Int × α)) (k : Int) : Option α :=
  (l.reverse.find? (fun p => p.1 == k)).map (fun p => p.2)

/-- The conversion dict of process_agreement_file_to_coco. -/
def splitConversion : String → Option String
  | "spin_val_parts" => some "val"
  | "spin_test_parts" => some "test"
  | "spin_train_parts" => some "train"
  | "spin_val_subparts" => some "val"
  | "spin_test_subparts" => some "test"
  | "spin_train_subparts" => some "train"
  | "train" => some "train"
  | "val" => some "val"
  | "test" => some "test"
  | _ => none

/-- splits resolution: conversion[task_type] when task_type is a key of
the conversion dict, otherwise the agreement's split field. -/
def resolveSplits (ag : Agreement) : Option String :=
  match ag.task_type with
  | some t =>
    match splitConversion t with
    | some s => some s
    | none => ag.split
  | none => ag.split

/-- image_mappings[splits]: a KeyError for any split name other than
train / val / test (the error aborts the whole file via the outer
except). -/
def mapTable (m : Mappings) : String → Option (List (Int × ImgMapEntry))
  | "train" => some m.train
  | "val" => some m.valT
  | "test" => some m.test
  | _ => none

/-- annotation_mappings[splits], same key space. -/
def annTable (m : AnnMaps) : String → Option (List (Int × OrigAnn))
  | "train" => some m.train
  | "val" => some m.valT
  | "test" => some m.test
  | _ => none

/-- The repository S3 base URL (default bucket name). -/
def s3BaseUrl : String := "https://spin-instance.s3.us-east-2.amazonaws.com"

/-- Python str.lstrip("/"). -/
def stripLeadSlash (s : String) : String :=
  ⟨s.data.dropWhile (fun c => c == '/')⟩

/-- os.path.basename: the part after the last slash. -/
def baseName (s : String) : String :=
  ⟨(s.data.reverse.takeWhile (fun c => c != '/')).reverse⟩

/-- create_coco_from_agreements.generate_s3_url. -/
def generateS3Url (fileName sp : String) : String :=
  let fn := stripLeadSlash fileName
  let fn' := if (baseName fn).contains '.' then fn else fn ++ ".JPEG"
  if sp ≠ "" then s3BaseUrl ++ "/" ++ sp ++ "/" ++ fn'
  else s3BaseUrl ++ "/" ++ fn'

/-- An image entry of the emitted COCO data. -/
structure CocoImg where
  id : Int
  file_name : String
  height : Option Int
  width : Option Int
  license : Int
  deriving DecidableEq, Repr

/-- An annotation entry of the emitted COCO data. -/
structure CocoOutAnn where
  id : Int
  annotation_id : Int
  split : String
  image_id : Int
  category_id : Int
  bbox : BVal
  area : Rat
  iscrowd : Int
  segmentation : Option Seg
  deriving DecidableEq, Repr

/-- The loop state of process_agreement_file_to_coco: the growing
images and annotations lists, the processed_images set (as its
insertion order) and annotation_id_counter. -/
structure AgState where
  images : List CocoImg
  annotations : List CocoOutAnn
  processed : List Int
  counter : Int
  deriving Repr

/-- One iteration of the agreement loop: skip on a missing image_id,
annotation_id or split; abort (outer except) on an unknown split name;
otherwise add the image once per image_id and append the original
annotation when its mapping exists. -/
def agStep (imaps : Mappings) (amaps : AnnMaps) (st : AgState) (ag : Agreement) :
    Except Unit AgState :=
  if ag.image_id.isNone || ag.annotation_id.isNone then .ok st
  else
    match resolveSplits ag with
    | none => .ok st
    | some sp =>
      match mapTable imaps sp with
      | none => .error ()
      | some tbl =>
        match ag.image_id, ag.annotation_id with
        | some iid, some aid =>
          match lookupMap tbl iid with
          | none => .ok st
          | some info =>
            let st1 : AgState :=
              if st.processed.contains iid then st
              else { st with
                      images := st.images ++
                        [⟨iid, generateS3Url info.file_name sp, info.height, info.width, 1⟩],
                      processed := st.processed ++ [iid] }
            match annTable amaps sp with
            | none => .error ()
            | some atbl =>
              match lookupMap atbl aid with
              | none => .ok st1
              | some orig =>
                let ca : CocoOutAnn :=
                  { id := st1.counter
                    annotation_id := aid
                    split := sp
                    image_id := iid
                    category_id := 1
                    bbox := match orig.bbox with | none => BVal.flat [] | some b => b
                    area := match orig.area with | none => 0 | some ar => ar
                    iscrowd := 0
                    segmentation := orig.segmentation }
                .ok { st1 with annotations := st1.annotations ++ [ca], counter := st1.counter + 1 }
        | _, _ => .ok st

/-- The agreement loop (sequential fold over the consensus-filtered
records, the first exception aborting the file). -/
def processAgreements (imaps : Mappings) (amaps : AnnMaps) :
    AgState → List Agreement → Except Unit AgState
  | st, [] => .ok st
  | st, ag :: rest =>
    match agStep imaps amaps st ag with
    | .error e => .error e
    | .ok st' => processAgreements imaps amaps st' rest

/-- A parsed agreement file. -/
structure AgreementFile where
  category : String
  results : List Agreement

/-- The emitted COCO payload (the parts the claims are about). -/
structure AgResult where
  images : List CocoImg
  annotations : List CocoOutAnn
  deriving Repr

/-- process_agreement_file_to_coco: filter the results for
consensus_result == 1, return None when none qualify, run the loop
(None on an exception), and return None again when no image was
collected. -/
def processAgreementFile (file : AgreementFile) (imaps : Mappings) (amaps : AnnMaps) :
    Option AgResult :=
  let multiple := file.results.filter (fun a => a.consensus_result == some 1)
  if multiple.isEmpty then none
  else
    match processAgreements imaps amaps ⟨[], [], [], 0⟩ multiple with
    | .error _ => none
    | .ok st => if st.images.isEmpty then none else some ⟨st.images, st.annotations⟩

/-! ## Classcification backend main.py, GET /api/tasks/ -/

/-- The tasks allow-list of main.py. -/
def backendTasks : List String :=
  ["QualificationTest_parts", "QualificationTest_subparts", "agreeTest", "main",
   "spin_val_parts", "spin_val_subparts", "spin_train_parts", "spin_train_subparts",
   "spin_test_subparts", "spin_test_parts"]

/-- The query parameters of GET /api/tasks/. -/
structure TaskReq where
  task : String
  category : String
  groupIndex : Int
  sandbox : Bool
  review : Bool
  assignmentId : String
  deriving DecidableEq, Repr

/-- One HIT group object from the fetched JSON (a missing key is none). -/
structure HitGroup where
  entry_id : Option (List Int)
  annotations : Option (List (Option String))
  deriving DecidableEq, Repr

/-- The JSON value the fetch returns: a list of groups, a single group
object, or null. -/
inductive HitData where
  | arr (gs : List HitGroup)
  | grp (g : HitGroup)
  | null
  deriving Repr

/-- The outcome of requests.get(url) followed by .raise_for_status()
and .json(): either a RequestException or a JSON value. -/
inductive FetchResult where
  | exc (msg : String)
  | ok (data : HitData)

/-- An exception raised inside the handler body. -/
inductive PyExc where
  | http (status : Nat) (detail : String)
  | keyErr (k : String)
  | typeErr
  deriving DecidableEq, Repr

/-- The successful JSON payload of the handler. -/
structure TaskResp where
  entry_ids : List Int
  answers : List (Option String)
  deriving DecidableEq, Repr

/-- Python len() of a group dict: its number of present keys. -/
def grpLen (g : HitGroup) : Nat :=
  (if g.entry_id.isSome then 1 else 0) + (if g.annotations.isSome then 1 else 0)

/-- Python truthiness of a group dict (an empty dict is falsy). -/
def grpTruthy (g : HitGroup) : Bool :=
  g.entry_id.isSome || g.annotations.isSome

/-- The tail of the handler body: group_data["entry_id"] (KeyError when
absent), group_data.get("annotations", []), and the answers loop that
keeps each item's result and appends None for items without one. -/
def extractGroup (g : HitGroup) : Except PyExc TaskResp :=
  match g.entry_id with
  | none => .error (.keyErr "entry_id")
  | some ids =>
    let anns := g.annotations.getD []
    .ok ⟨ids, anns.map (fun item => item)⟩

/-- The body of get_task_ids inside its try block: the task allow-list
check (HTTP 400), the URL construction, the fetch (HTTP 500 on a
request error), the non-review bounds check (HTTP 404), the review
emptiness check (HTTP 404), and the group extraction; dynamic-typing
failures surface as KeyError / TypeError. -/
def getTaskIdsInner (fetch : String → FetchResult) (req : TaskReq) : Except PyExc TaskResp :=
  if !(backendTasks.contains req.task) then .error (.http 400 "Invalid task specified")
  else
    let environment := if req.sandbox then "sandbox" else "live"
    let url :=
      if req.review then
        "https://spin-instance.s3.us-east-2.amazonaws.com/HITs/" ++ req.category ++ "/" ++
          req.task ++ "/" ++ environment ++ "/group_" ++ toString req.groupIndex ++ "_" ++
          req.assignmentId ++ ".json"
      else
        "https://spin-instance.s3.us-east-2.amazonaws.com/HITs/" ++ req.task ++ "/" ++
          req.category ++ "/" ++ environment ++ ".json"
    match fetch url with
    | .exc m => .error (.http 500 ("Failed to fetch HIT file: " ++ m))
    | .ok data =>
      if req.review then
        match data with
        | .grp g => if grpTruthy g then extractGroup g
                    else .error (.http 404 "No data found for the specified group index")
        | .null => .error (.http 404 "No data found for the specified group index")
        | .arr gs =>
          if gs.isEmpty then .error (.http 404 "No data found for the specified group index")
          else .error .typeErr
      else
        match data with
        | .arr gs =>
          if req.groupIndex < 0 || (gs.length : Int) ≤ req.groupIndex then
            .error (.http 404 "Group index out of range")
          else
            match gs.get? req.groupIndex.toNat with
            | some g => extractGroup g
            | none => .error .typeErr
        | .grp g =>
          if req.groupIndex < 0 || (grpLen g : Int) ≤ req.groupIndex then
            .error (.http 404 "Group index out of range")
          else .error (.keyErr "groupIndex")
        | .null => .error .typeErr

/-- What the endpoint answers: the success payload, or the HTTP error
that leaves the handler. -/
inductive HandlerOutcome where
  | success (r : TaskResp)
  | failure (status : Nat) (detail : String)
  deriving DecidableEq, Repr

/-- get_task_ids: the try body wrapped in the broad except Exception
handler, which re-raises every failure as HTTP 500 Internal Server
Error. -/
def getTaskIds (fetch : String → FetchResult) (req : TaskReq) : HandlerOutcome :=
  match getTaskIdsInner fetch req with
  | .ok r => .success r
  | .error _ => .failure 500 "Internal Server Error"

/-! ## Claim-side predicates -/

/-- The flattened-bbox non-positive-dimension test of claim C3, with the
flattening of is_valid_bbox (take the first inner list). -/
def bboxFlattenedNonpos : Option BVal → Bool
  | some (.flat [_, _, w, h]) => decide (w ≤ 0) || decide (h ≤ 0)
  | some (.nested ([_, _, w, h] :: _)) => decide (w ≤ 0) || decide (h ≤ 0)
  | _ => false

/-- Claim C3's characterization of an annotation that must be removed:
a missing area, bbox, segmentation or iscrowd field, or a bbox whose
width or height is not strictly positive. -/
def isBadAnn (ann : FAnn) : Bool :=
  ann.area.isNone || ann.bbox.isNone || ann.segmentation.isNone || ann.iscrowd.isNone ||
    bboxFlattenedNonpos ann.bbox

/-- A valid polygon list in the sense of claim C6: a non-empty list of
polygons, each with an even number of at least six coordinates. -/
def validPolys (ps : List (List Rat)) : Bool :=
  !ps.isEmpty && ps.all (fun p => p.length % 2 == 0 && decide (6 ≤ p.length))

/-- The image ids of the consensus_result == 1 agreements of a file,
in file order (claim C9). -/
def consensusOneIds (file : AgreementFile) : List Int :=
  (file.results.filter (fun a => a.consensus_result == some 1)).filterMap (fun a => a.image_id)

/-! # Theorems -/

/-! ## fix_train_annotations -/

theorem renumberFrom_map_id (l : List FAnn) : ∀ n : Int,
    (renumberFrom n l).map (fun a => a.id) =
      (List.range l.length).map (fun i : Nat => n + (i : Int)) := by
  induction l with
  | nil => intro n; rfl
  | cons a as ih =>
    intro n
    have h1 : (renumberFrom n (a :: as)).map (fun x => x.id)
        = n :: (renumberFrom (n + 1) as).map (fun x => x.id) := rfl
    rw [h1, ih (n + 1), List.length_cons, List.range_succ_eq_map, List.map_cons,
      List.map_map]
    congr 1
    · simp
    · refine List.map_congr_left (fun i _ => ?_)
      show n + 1 + (i : Int) = n + ((Nat.succ i : Nat) : Int)
      push_cast
      ring

/-- C4: in fix_train_annotations, the id values of the output
annotations are exactly 1..N in list order, with no gaps and no
duplicates, where N is the number of annotations retained after
validation. -/
theorem fix_ids_are_one_to_N (imgs : List FImg) (anns : List FAnn) :
    (fixAnnotations imgs anns).map (fun a => a.id) =
      (List.range (anns.filterMap (processAnn imgs)).length).map (fun i : Nat => (i : Int) + 1) := by
  unfold fixAnnotations
  rw [renumberFrom_map_id]
  exact List.map_congr_left (fun i _ => by omega)

theorem filterMap_filter_not_eq {α β : Type} (p : α → Option β) (q : α → Bool)
    (h : ∀ a, q a = true → p a = none) (l : List α) :
    (l.filter (fun a => !q a)).filterMap p = l.filterMap p := by
  induction l with
  | nil => rfl
  | cons a as ih =>
    cases hq : q a with
    | true => simp [List.filter_cons, hq, List.filterMap_cons, h a hq, ih]
    | false => simp [List.filter_cons, hq, List.filterMap_cons, ih]

theorem isValidBbox_nonpos (x y w h : Rat) (hw : w ≤ 0 ∨ h ≤ 0) :
    checkDims [x, y, w, h] = none := by
  show (if 0 < w ∧ 0 < h then some [x, y, w, h] else none) = none
  rw [if_neg]
  rintro ⟨h1, h2⟩
  rcases hw with hw | hw
  · exact absurd h1 (not_lt.mpr hw)
  · exact absurd h2 (not_lt.mpr hw)

theorem processAnn_eq_none_of_bad (imgs : List FImg) (ann : FAnn)
    (h : isBadAnn ann = true) : processAnn imgs ann = none := by
  unfold isBadAnn at h
  simp only [Bool.or_eq_true, Option.isNone_iff_eq_none] at h
  rcases h with ((((ha | hb) | hs) | hc) | hnp)
  · simp [processAnn, areaCheck, ha]
  · simp [processAnn, bboxCheck, hb]
  · simp [processAnn, segCheck, hs]
  · simp [processAnn, crowdCheck, hc]
  · have hb1 : (bboxCheck ann).1 = false := by
      unfold bboxFlattenedNonpos at hnp
      split at hnp
      next w h' heq =>
        simp only [Bool.or_eq_true, decide_eq_true_eq] at hnp
        simp [bboxCheck, heq, isValidBbox, isValidBbox_nonpos _ _ w h' hnp]
      next w h' xs heq =>
        simp only [Bool.or_eq_true, decide_eq_true_eq] at hnp
        simp [bboxCheck, heq, isValidBbox, isValidBbox_nonpos _ _ w h' hnp]
      next => exact absurd hnp (by simp)
    simp [processAnn, hb1]

/-- C3: in fix_train_annotations, every annotation lacking an area,
bbox, segmentation or iscrowd field, or whose bbox width or height is
not strictly positive, is removed by validation; removing all such
annotations from the input leaves the output, including its re-indexed
id sequence, unchanged, so they contribute nothing to it. -/
theorem fix_bad_annotations_absent (imgs : List FImg) (anns : List FAnn) (ann : FAnn)
    (hbad : isBadAnn ann = true) :
    processAnn imgs ann = none ∧
      fixAnnotations imgs anns = fixAnnotations imgs (anns.filter (fun a => !(isBadAnn a))) := by
  refine ⟨processAnn_eq_none_of_bad imgs ann hbad, ?_⟩
  unfold fixAnnotations
  rw [filterMap_filter_not_eq (processAnn imgs) isBadAnn
    (fun a ha => processAnn_eq_none_of_bad imgs a ha)]

theorem fix_bad_annotations_absent_witness :
    processAnn [] ⟨1, none, none, none, none, none⟩ = none ∧
      fixAnnotations [] [⟨1, none, none, none, none, none⟩] =
        fixAnnotations []
          ([(⟨1, none, none, none, none, none⟩ : FAnn)].filter (fun a => !(isBadAnn a))) :=
  fix_bad_annotations_absent [] [⟨1, none, none, none, none, none⟩]
    ⟨1, none, none, none, none, none⟩ (by decide)

theorem checkDims_some (xs ys : List Rat) (h : checkDims xs = some ys) : ys = xs := by
  unfold checkDims at h
  split at h
  next =>
    split at h
    · injection h with h2; exact h2.symm
    · exact absurd h (by simp)
  next => exact absurd h (by simp)

theorem isValidBbox_flat_some (xs fixed : List Rat)
    (h : isValidBbox (BVal.flat xs) = some fixed) : fixed = xs := by
  have h' : (if xs.length = 4 then checkDims xs else none) = some fixed := h
  split at h'
  · exact checkDims_some xs fixed h'
  · exact absurd h' (by simp)

theorem isValidBbox_nested_some (x : List Rat) (rest : List (List Rat)) (fixed : List Rat)
    (h : isValidBbox (BVal.nested (x :: rest)) = some fixed) : fixed = x := by
  have h' : (if x.length = 4 then checkDims x else none) = some fixed := h
  split at h'
  · exact checkDims_some x fixed h'
  · exact absurd h' (by simp)

/-- C5: in fix_train_annotations, a retained annotation whose input
bbox is a flat 4-element list keeps it unchanged, and one whose input
bbox is the nested form with a single inner list gets that inner list
as its output bbox. -/
theorem fix_bbox_forms (imgs : List FImg) (ann out : FAnn)
    (h : processAnn imgs ann = some out) :
    (∀ xs, ann.bbox = some (.flat xs) → out.bbox = ann.bbox) ∧
    (∀ xs, ann.bbox = some (.nested [xs]) → out.bbox = some (.flat xs)) := by
  unfold processAnn at h
  split at h
  case isTrue hcond =>
    injection h with hout
    have hbb : (bboxCheck ann).1 = true := by
      simp only [Bool.and_eq_true] at hcond
      exact hcond.1.1.2
    constructor
    · intro xs hx
      rw [← hout]
      show (bboxCheck ann).2 = ann.bbox
      cases hv : isValidBbox (BVal.flat xs) with
      | none => simp [bboxCheck, hx, hv] at hbb
      | some fixed =>
        have hfx : fixed = xs := isValidBbox_flat_some xs fixed hv
        subst hfx
        simp [bboxCheck, hx, hv]
    · intro xs hx
      rw [← hout]
      show (bboxCheck ann).2 = some (.flat xs)
      cases hv : isValidBbox (BVal.nested [xs]) with
      | none => simp [bboxCheck, hx, hv] at hbb
      | some fixed =>
        have hfx : fixed = xs := isValidBbox_nested_some xs [] fixed hv
        subst hfx
        simp [bboxCheck, hx, hv]
  case isFalse => exact absurd h (by simp)

theorem fix_bbox_forms_witness :
    processAnn [] ⟨5, none, some (.rle [2, 2] "r"), some (.nested [[0, 0, 2, 2]]), some 4, some 0⟩ =
      some ⟨5, none, some (.rle [2, 2] "r"), some (.flat [0, 0, 2, 2]), some 4, some 0⟩ ∧
    (⟨5, none, some (.rle [2, 2] "r"), some (.flat [0, 0, 2, 2]), some 4, some 0⟩ : FAnn).bbox =
      some (BVal.flat [0, 0, 2, 2]) :=
  ⟨by decide,
    (fix_bbox_forms []
      ⟨5, none, some (.rle [2, 2] "r"), some (.nested [[0, 0, 2, 2]]), some 4, some 0⟩
      ⟨5, none, some (.rle [2, 2] "r"), some (.flat [0, 0, 2, 2]), some 4, some 0⟩
      (by decide)).2 [0, 0, 2, 2] rfl⟩

/-! ## backend GET tasks -/

/-- C10: in the FastAPI backend, every error outcome of GET /api/tasks/
is HTTP 500 with detail Internal Server Error: the broad except around
the handler body intercepts the HTTPExceptions raised inside (400 for
an invalid task, 404 for an out-of-range group index, 500 for a failed
fetch) and re-raises each as 500, so no request yields a 400 or 404. -/
theorem tasks_errors_all_500 (fetch : String → FetchResult) (req : TaskReq)
    (s : Nat) (d : String) (h : getTaskIds fetch req = .failure s d) :
    s = 500 ∧ d = "Internal Server Error" := by
  unfold getTaskIds at h
  cases hinner : getTaskIdsInner fetch req with
  | ok r => rw [hinner] at h; exact absurd h (by simp)
  | error e =>
    rw [hinner] at h
    injection h with h1 h2
    exact ⟨h1.symm, h2.symm⟩

theorem tasks_errors_all_500_witness :
    getTaskIds (fun _ => FetchResult.ok HitData.null) ⟨"nope", "c", 0, false, false, "a"⟩ =
      HandlerOutcome.failure 500 "Internal Server Error" ∧
    (500 = 500 ∧ "Internal Server Error" = "Internal Server Error") :=
  ⟨by decide,
    tasks_errors_all_500 (fun _ => FetchResult.ok HitData.null)
      ⟨"nope", "c", 0, false, false, "a"⟩ 500 "Internal Server Error" (by decide)⟩

/-! ## create_archive_dataset -/

theorem join_chunks {α : Type} (l : List α) (m : Nat) (n : Nat) :
    ((List.range n).map (fun i : Nat => (l.drop (i * m)).take m)).flatten = l.take (n * m) := by
  induction n with
  | zero => simp
  | succ k ih =>
    rw [List.range_succ, List.map_append, List.flatten_append, ih]
    simp only [List.map_cons, List.map_nil, List.flatten_cons, List.flatten_nil, List.append_nil]
    rw [← List.take_add]
    congr 1
    rw [Nat.succ_mul]

/-- C8 (amended): split_large_dataset with the 150-image limit, on
inputs whose every annotation references one of the given images,
yields chunks of at most 150 images whose image lists concatenate to
the input and whose annotation lists are exactly the input annotations
owned by the chunk's images. -/
theorem split_large_dataset_spec (splitImages : List ArchImg) (splitAnnotations : List ArchAnn)
    (h : ∀ a ∈ splitAnnotations, annInChunk (splitImages.map (fun im => im.id)) a = true) :
    (∀ c ∈ splitLargeDataset splitImages splitAnnotations 150, c.1.length ≤ 150) ∧
    ((splitLargeDataset splitImages splitAnnotations 150).map (fun c => c.1)).flatten = splitImages ∧
    (∀ c ∈ splitLargeDataset splitImages splitAnnotations 150,
      c.2.1 = splitAnnotations.filter (annInChunk (c.1.map (fun im => im.id)))) := by
  unfold splitLargeDataset
  by_cases hle : splitImages.length ≤ 150
  · rw [if_pos hle]
    refine ⟨?_, ?_, ?_⟩
    · intro c hc
      simp only [List.mem_singleton] at hc
      subst hc
      exact hle
    · simp
    · intro c hc
      simp only [List.mem_singleton] at hc
      subst hc
      show splitAnnotations = splitAnnotations.filter (annInChunk (splitImages.map (fun im => im.id)))
      exact (List.filter_eq_self.mpr (fun a ha => h a ha)).symm
  · rw [if_neg hle]
    refine ⟨?_, ?_, ?_⟩
    · intro c hc
      simp only [List.mem_map, List.mem_range] at hc
      obtain ⟨i, _, hci⟩ := hc
      rw [← hci]
      simp only [List.length_take]
      exact Nat.min_le_left _ _
    · rw [List.map_map]
      have hj : ((List.range ((splitImages.length + 150 - 1) / 150)).map
          (fun i : Nat => (splitImages.drop (i * 150)).take 150)).flatten =
          splitImages.take (((splitImages.length + 150 - 1) / 150) * 150) :=
        join_chunks splitImages 150 _
      have hb : splitImages.length ≤ ((splitImages.length + 150 - 1) / 150) * 150 := by
        omega
      calc ((List.range ((splitImages.length + 150 - 1) / 150)).map
            ((fun c : List ArchImg × List ArchAnn × Option Nat => c.1) ∘
              (fun i : Nat =>
                ((splitImages.drop (i * 150)).take 150,
                  splitAnnotations.filter
                    (annInChunk (((splitImages.drop (i * 150)).take 150).map (fun im => im.id))),
                  some i)))).flatten
          = ((List.range ((splitImages.length + 150 - 1) / 150)).map
              (fun i : Nat => (splitImages.drop (i * 150)).take 150)).flatten := rfl
        _ = splitImages.take (((splitImages.length + 150 - 1) / 150) * 150) := hj
        _ = splitImages := List.take_of_length_le hb
    · intro c hc
      simp only [List.mem_map, List.mem_range] at hc
      obtain ⟨i, _, hci⟩ := hc
      rw [← hci]

theorem split_large_dataset_spec_witness :
    ((splitLargeDataset [⟨1⟩] [⟨some 1⟩] 150).map (fun c => c.1)).flatten = [⟨1⟩] :=
  (split_large_dataset_spec [⟨1⟩] [⟨some 1⟩] (by decide)).2.1

/-! ## convert_cvat_to_rle: structure of an exception-free run -/

theorem cvatStepAnn_id (cats : List CCat) (done rest : List CAnn) (a : CAnn) (img : CImg) :
    (cvatStepAnn cats done rest a img).1.id = a.id := rfl

theorem cvatStepAnn_image_id (cats : List CCat) (done rest : List CAnn) (a : CAnn) (img : CImg) :
    (cvatStepAnn cats done rest a img).1.image_id = a.image_id := rfl

theorem cvatStepAnn_category_id (cats : List CCat) (done rest : List CAnn) (a : CAnn)
    (img : CImg) : (cvatStepAnn cats done rest a img).1.category_id = a.category_id := rfl

theorem cvatStepAnn_seg (cats : List CCat) (done rest : List CAnn) (a : CAnn) (img : CImg) :
    (cvatStepAnn cats done rest a img).1.segmentation = (segStep a.segmentation img).1 := rfl

theorem cvatGo_ok_fields (imgs : List CImg) (cats : List CCat) :
    ∀ (todo done : List CAnn) (c s e : Nat) (st : CState),
      cvatGo imgs cats done c s e todo = .ok st →
      ∃ tail, st.anns = done ++ tail ∧
        List.Forall₂ (fun a b : CAnn =>
          b.id = a.id ∧ b.image_id = a.image_id ∧ b.category_id = a.category_id ∧
            b.segmentation = cvatSegResult imgs a) todo tail := by
  intro todo
  induction todo with
  | nil =>
    intro done c s e st h
    refine ⟨[], ?_, List.Forall₂.nil⟩
    have hst : CState.mk done c s e = st := by
      simpa [cvatGo] using h
    rw [← hst]
    simp
  | cons a rest ih =>
    intro done c s e st h
    rw [cvatGo] at h
    cases himg : lookupImage imgs a.image_id with
    | none =>
      rw [himg] at h
      cases hcn : a.category_name with
      | none => rw [hcn] at h; exact absurd h (by simp)
      | some cn =>
        rw [hcn] at h
        cases hin : a.instance_id with
        | none => rw [hin] at h; exact absurd h (by simp)
        | some iq =>
          rw [hin] at h
          obtain ⟨tail', heq, hf⟩ := ih (done ++ [a]) c s (e + 1) st h
          refine ⟨a :: tail', by simpa using heq, List.Forall₂.cons ⟨rfl, rfl, rfl, ?_⟩ hf⟩
          unfold cvatSegResult
          rw [himg]
    | some img =>
      simp only [himg] at h
      have hloc : ∀ (b : CAnn), b = (cvatStepAnn cats done rest a img).1 →
          b.id = a.id ∧ b.image_id = a.image_id ∧ b.category_id = a.category_id ∧
            b.segmentation = cvatSegResult imgs a := by
        intro b hb
        subst hb
        refine ⟨rfl, rfl, rfl, ?_⟩
        rw [cvatStepAnn_seg]
        unfold cvatSegResult
        rw [himg]
      cases htag : (cvatStepAnn cats done rest a img).2 with
      | converted =>
        rw [htag] at h
        obtain ⟨tail', heq, hf⟩ := ih (done ++ [(cvatStepAnn cats done rest a img).1])
          (c + 1) s e st h
        exact ⟨(cvatStepAnn cats done rest a img).1 :: tail', by simpa using heq,
          List.Forall₂.cons (hloc _ rfl) hf⟩
      | skipped =>
        rw [htag] at h
        obtain ⟨tail', heq, hf⟩ := ih (done ++ [(cvatStepAnn cats done rest a img).1])
          c (s + 1) e st h
        exact ⟨(cvatStepAnn cats done rest a img).1 :: tail', by simpa using heq,
          List.Forall₂.cons (hloc _ rfl) hf⟩
      | errored =>
        rw [htag] at h
        obtain ⟨tail', heq, hf⟩ := ih (done ++ [(cvatStepAnn cats done rest a img).1])
          c s (e + 1) st h
        exact ⟨(cvatStepAnn cats done rest a img).1 :: tail', by simpa using heq,
          List.Forall₂.cons (hloc _ rfl) hf⟩

theorem filterMap_filter_isSome {α β : Type} (p : α → Option β) (l : List α) :
    (l.filter (fun a => (p a).isSome)).filterMap p = l.filterMap p := by
  induction l with
  | nil => rfl
  | cons a as ih =>
    cases hp : p a with
    | none => simp [List.filter_cons, hp, List.filterMap_cons, ih]
    | some b => simp [List.filter_cons, hp, List.filterMap_cons, ih]

theorem forall₂_map_eq {α β : Type} {R : α → β → Prop} {f : α → Int} {g : β → Int}
    (hR : ∀ a b, R a b → g b = f a) :
    ∀ (l1 : List α) (l2 : List β), List.Forall₂ R l1 l2 → l2.map g = l1.map f := by
  intro l1 l2 h
  induction h with
  | nil => rfl
  | cons hab _ ih => simp [ih, hR _ _ hab]

theorem forall₂_get? {α β : Type} {R : α → β → Prop} :
    ∀ (l1 : List α) (l2 : List β), List.Forall₂ R l1 l2 →
      ∀ (k : Nat) (a : α), l1.get? k = some a → ∃ b, l2.get? k = some b ∧ R a b := by
  intro l1 l2 h
  induction h with
  | nil => intro k a ha; simp at ha
  | cons hab htail ih =>
    intro k a ha
    cases k with
    | zero =>
      simp only [List.get?_cons_zero, Option.some.injEq] at ha
      subst ha
      exact ⟨_, rfl, hab⟩
    | succ n =>
      simp only [List.get?_cons_succ] at ha ⊢
      exact ih n a ha

/-- C2 (amended): fix_train_annotations drops the annotations failing
validation and renumbers the retained ids sequentially from 1;
convert_cvat_to_rle, by contrast, drops nothing and renumbers nothing:
an exception-free run writes one output annotation per input
annotation, ids unchanged in order (failures are only counted and
reported). -/
theorem dropped_and_renumbered (imgs : List FImg) (anns : List FAnn)
    (cimgs : List CImg) (ccats : List CCat) (canns : List CAnn) (st : CState)
    (hok : cvatRun cimgs ccats canns = .ok st) :
    fixAnnotations imgs anns =
      fixAnnotations imgs (anns.filter (fun a => (processAnn imgs a).isSome)) ∧
    (fixAnnotations imgs anns).map (fun a => a.id) =
      (List.range (anns.filterMap (processAnn imgs)).length).map (fun i : Nat => (i : Int) + 1) ∧
    st.anns.map (fun a => a.id) = canns.map (fun a => a.id) := by
  refine ⟨?_, ?_, ?_⟩
  · unfold fixAnnotations
    rw [filterMap_filter_isSome]
  · unfold fixAnnotations
    rw [renumberFrom_map_id]
    exact List.map_congr_left (fun i _ => by omega)
  · obtain ⟨tail, heq, hf⟩ := cvatGo_ok_fields cimgs ccats canns [] 0 0 0 st hok
    rw [heq]
    simpa using forall₂_map_eq (fun a b hab => hab.1) canns tail hf

theorem dropped_and_renumbered_witness :
    fixAnnotations [] [] =
      fixAnnotations [] (([] : List FAnn).filter (fun a => (processAnn [] a).isSome)) ∧
    (fixAnnotations [] []).map (fun a => a.id) =
      (List.range (([] : List FAnn).filterMap (processAnn [])).length).map
        (fun i : Nat => (i : Int) + 1) ∧
    (CState.mk [⟨3, 1, 1, none, some "X", some 1⟩] 0 0 1).anns.map (fun a => a.id) =
      ([⟨3, 1, 1, none, none, none⟩] : List CAnn).map (fun a => a.id) :=
  dropped_and_renumbered [] [] [⟨1, 4, 4⟩] [⟨1, "X"⟩] [⟨3, 1, 1, none, none, none⟩]
    ⟨[⟨3, 1, 1, none, some "X", some 1⟩], 0, 0, 1⟩ (by rfl)

/-- Counterexample to C2 as stated: convert_cvat_to_rle retains an
annotation that fails validation (it has no segmentation, so the error
counter ends at 1) in the written annotations list, with its id 9
unchanged rather than renumbered or removed. -/
theorem dropped_and_renumbered_cex :
    cvatRun [⟨1, 4, 4⟩] [⟨1, "X"⟩] [⟨9, 1, 1, none, none, none⟩] =
      .ok ⟨[⟨9, 1, 1, none, some "X", some 1⟩], 0, 0, 1⟩ ∧
    (cvatAnnsD [⟨1, 4, 4⟩] [⟨1, "X"⟩] [⟨9, 1, 1, none, none, none⟩]).map (fun a => a.id) =
      [9] := by
  exact ⟨rfl, rfl⟩

theorem fixPolygonToRle_valid (ps : List (List Rat)) (h w : Int) (hv : validPolys ps = true) :
    fixPolygonToRle (.polys ps) h w = some (.rle [h, w] (rleCounts h w)) := by
  cases ps with
  | nil => simp [validPolys] at hv
  | cons p rest =>
    simp only [validPolys, Bool.and_eq_true, List.all_cons, Bool.and_eq_true, beq_iff_eq,
      decide_eq_true_eq] at hv
    obtain ⟨_, ⟨_, hp6⟩, _⟩ := hv
    have e : fixPolygonToRle (.polys (p :: rest)) h w =
        (if p.length = 4 then
          (if (p :: rest).all (fun q => q.length == 4) then
            some (Seg.rle [h, w] (rleCounts h w)) else none)
        else if 4 < p.length then some (Seg.rle [h, w] (rleCounts h w)) else none) := rfl
    rw [e, if_neg (by omega), if_pos (by omega)]

theorem cvatPolygonToRle_valid (ps : List (List Rat)) (wd ht : Int) (hv : validPolys ps = true) :
    cvatPolygonToRle (.polys ps) wd ht = some (.rle [ht, wd] (rleCounts ht wd)) := by
  simp only [validPolys, Bool.and_eq_true, Bool.not_eq_true', List.all_eq_true,
    Bool.and_eq_true, beq_iff_eq, decide_eq_true_eq] at hv
  obtain ⟨hne, hall⟩ := hv
  have e : cvatPolygonToRle (.polys ps) wd ht =
      (if ps.isEmpty then none
       else if ps.all (fun p => decide (p.length < 6) || p.length % 2 == 0) then
         some (Seg.rle [ht, wd] (rleCounts ht wd)) else none) := rfl
  rw [e, if_neg (by simp [hne]), if_pos]
  rw [List.all_eq_true]
  intro p hp
  simp only [Bool.or_eq_true, decide_eq_true_eq, beq_iff_eq]
  exact Or.inr (hall p hp).1

theorem segStep_polys_valid (ps : List (List Rat)) (img : CImg) (hv : validPolys ps = true) :
    segStep (some (.polys ps)) img =
      (some (.rle [img.height, img.width] (rleCounts img.height img.width)), .converted) := by
  have hne : ps.isEmpty = false := by
    simp only [validPolys, Bool.and_eq_true, Bool.not_eq_true'] at hv
    exact hv.1
  have htr : segTruthy (some (.polys ps)) = true := by
    simp [segTruthy, hne]
  have e : segStep (some (.polys ps)) img =
      (if segTruthy (some (.polys ps)) then
        match cvatPolygonToRle (.polys ps) img.width img.height with
        | some r => (some r, SegTag.converted)
        | none => (some (Seg.polys ps), SegTag.errored)
      else (some (Seg.polys ps), SegTag.errored)) := rfl
  rw [e, if_pos htr, cvatPolygonToRle_valid ps img.width img.height hv]

/-- C6: in both converter scripts, an annotation whose input
segmentation is a valid polygon list and whose owning image exists gets
as output segmentation an RLE dict whose size equals [height, width] of
that image (its counts field is a string by the type of Seg.rle). -/
theorem rle_size_matches_image :
    (∀ (imgs : List FImg) (ann out : FAnn) (h w : Int) (ps : List (List Rat)),
      processAnn imgs ann = some out → ann.segmentation = some (.polys ps) →
      validPolys ps = true → dimsLookup imgs ann.image_id = some (h, w) →
      ∃ s, out.segmentation = some (.rle [h, w] s)) ∧
    (∀ (cimgs : List CImg) (ccats : List CCat) (canns : List CAnn) (st : CState)
      (k : Nat) (a : CAnn) (img : CImg) (ps : List (List Rat)),
      cvatRun cimgs ccats canns = .ok st → canns.get? k = some a →
      a.segmentation = some (.polys ps) → validPolys ps = true →
      lookupImage cimgs a.image_id = some img →
      ∃ b, st.anns.get? k = some b ∧
        ∃ s, b.segmentation = some (.rle [img.height, img.width] s)) := by
  constructor
  · intro imgs ann out h w ps hsome hseg hv hdims
    unfold processAnn at hsome
    split at hsome
    case isFalse => exact absurd hsome (by simp)
    case isTrue =>
      injection hsome with hout
      refine ⟨rleCounts h w, ?_⟩
      rw [← hout]
      show (segCheck imgs ann).2 = some (.rle [h, w] (rleCounts h w))
      simp [segCheck, hseg, isValidRleSeg, segIsList, hdims,
        fixPolygonToRle_valid ps h w hv]
  · intro cimgs ccats canns st k a img ps hok hk hseg hv himg
    obtain ⟨tail, heq, hf⟩ := cvatGo_ok_fields cimgs ccats canns [] 0 0 0 st hok
    obtain ⟨b, hb, hrel⟩ := forall₂_get? canns tail hf k a hk
    refine ⟨b, ?_, rleCounts img.height img.width, ?_⟩
    · rw [heq]
      simpa using hb
    · rw [hrel.2.2.2]
      unfold cvatSegResult
      rw [himg, hseg]
      show (segStep (some (Seg.polys ps)) img).1 =
        some (.rle [img.height, img.width] (rleCounts img.height img.width))
      rw [segStep_polys_valid ps img hv]

theorem rle_size_matches_image_witness :
    ∃ s, (FAnn.mk 9 (some 1) (some (.rle [5, 7] (rleCounts 5 7)))
        (some (.flat [0, 0, 2, 2])) (some 4) (some 0)).segmentation =
      some (.rle [5, 7] s) :=
  rle_size_matches_image.1 [⟨1, 5, 7⟩]
    ⟨9, some 1, some (.polys [[0, 0, 4, 0, 4, 4]]), some (.flat [0, 0, 2, 2]), some 4, some 0⟩
    ⟨9, some 1, some (.rle [5, 7] (rleCounts 5 7)), some (.flat [0, 0, 2, 2]), some 4, some 0⟩
    5 7 [[0, 0, 4, 0, 4, 4]] (by rfl) rfl (by rfl) (by rfl)

/-- C7 evaluation (the code bug): on a file whose annotation lacks the
category_name key and references a missing image, convert_cvat_to_rle
raises KeyError out of the conversion instead of counting the error and
continuing, because the diagnostic print reads ann['category_name']
before the key is assigned. -/
theorem missing_image_keyerror :
    cvatRun [] [] [⟨1, 5, 1, some (.polys [[0, 0, 2, 0, 2, 2]]), none, none⟩] =
      .error (.keyError "category_name") := rfl

theorem pyIndex_append (l1 l2 : List CAnn) (a : CAnn) (h : ∀ x ∈ l1, x ≠ a) :
    pyIndex (l1 ++ a :: l2) a = l1.length := by
  induction l1 with
  | nil => simp [pyIndex]
  | cons x xs ih =>
    have hx : x ≠ a := h x (List.mem_cons_self x xs)
    show (if x = a then 0 else pyIndex (xs ++ a :: l2) a + 1) = xs.length + 1
    rw [if_neg hx, ih (fun y hy => h y (List.mem_cons_of_mem x hy))]

theorem instRange_succ (n : Nat) :
    instRange (n + 1) = instRange n ++ [some ((n : Int) + 1)] := by
  simp [instRange, List.range_succ]

theorem cvatGo_instance_ids (imgs : List CImg) (cats : List CCat) :
    ∀ (todo done : List CAnn) (c s e : Nat),
      ((done ++ todo).map (fun a => a.id)).Nodup →
      (∀ a ∈ todo, (lookupImage imgs a.image_id).isSome = true) →
      (∀ im cat, ((done.filter (cvatKey im cat)).map (fun a => a.instance_id)) =
        instRange (done.filter (cvatKey im cat)).length) →
      ∃ st, cvatGo imgs cats done c s e todo = .ok st ∧
        ∀ im cat,
          ((st.anns.filter (cvatKey im cat)).map (fun a => a.instance_id)) =
            instRange (st.anns.filter (cvatKey im cat)).length ∧
          (st.anns.filter (cvatKey im cat)).length =
            ((done ++ todo).filter (cvatKey im cat)).length := by
  intro todo
  induction todo with
  | nil =>
    intro done c s e hnd hpres hinv
    refine ⟨⟨done, c, s, e⟩, rfl, ?_⟩
    intro im cat
    exact ⟨hinv im cat, by simp⟩
  | cons a rest ih =>
    intro done c s e hnd hpres hinv
    have hpa := hpres a (List.mem_cons_self a rest)
    cases himg : lookupImage imgs a.image_id with
    | none => rw [himg] at hpa; simp at hpa
    | some img =>
      have hxid : (cvatStepAnn cats done rest a img).1.id = a.id := rfl
      have hne : ∀ y ∈ done.filter (cvatKey a.image_id a.category_id),
          y ≠ ({ a with category_name := some (lookupCatName cats a.category_id) } : CAnn) := by
        intro y hy hya
        have hyd : y ∈ done := List.mem_of_mem_filter hy
        have hid : a.id ∈ done.map (fun b => b.id) := by
          refine List.mem_map.mpr ⟨y, hyd, ?_⟩
          rw [hya]
        have hnd2 := hnd
        rw [List.map_append, List.nodup_append] at hnd2
        exact hnd2.2.2 hid (by simp)
      have hpy : pyIndex
          ((done ++ ({ a with category_name := some (lookupCatName cats a.category_id) } : CAnn)
              :: rest).filter (cvatKey a.image_id a.category_id))
          ({ a with category_name := some (lookupCatName cats a.category_id) } : CAnn) =
          (done.filter (cvatKey a.image_id a.category_id)).length := by
        rw [List.filter_append, List.filter_cons, if_pos (by simp [cvatKey])]
        exact pyIndex_append _ _ _ hne
      have hxinst : (cvatStepAnn cats done rest a img).1.instance_id =
          some (((done.filter (cvatKey a.image_id a.category_id)).length : Int) + 1) := by
        show some ((pyIndex
            ((done ++ ({ a with category_name := some (lookupCatName cats a.category_id) } : CAnn)
                :: rest).filter (cvatKey a.image_id a.category_id))
            ({ a with category_name := some (lookupCatName cats a.category_id) } : CAnn) : Int) + 1)
          = some (((done.filter (cvatKey a.image_id a.category_id)).length : Int) + 1)
        rw [hpy]
      have hnd' : (((done ++ [(cvatStepAnn cats done rest a img).1]) ++ rest).map
          (fun b => b.id)).Nodup := by
        have hmap : ((done ++ [(cvatStepAnn cats done rest a img).1]) ++ rest).map
            (fun b => b.id) = (done ++ a :: rest).map (fun b => b.id) := by
          simp [hxid]
        rw [hmap]
        exact hnd
      have hinv' : ∀ im cat,
          (((done ++ [(cvatStepAnn cats done rest a img).1]).filter (cvatKey im cat)).map
            (fun b => b.instance_id)) =
          instRange ((done ++ [(cvatStepAnn cats done rest a img).1]).filter
            (cvatKey im cat)).length := by
        intro im cat
        by_cases hk : cvatKey im cat (cvatStepAnn cats done rest a img).1 = true
        · have him : a.image_id = im ∧ a.category_id = cat := by
            have hk2 : cvatKey im cat a = true := hk
            simpa [cvatKey] using hk2
          obtain ⟨him1, him2⟩ := him
          subst him1
          subst him2
          rw [List.filter_append, List.filter_cons, if_pos hk]
          simp only [List.filter_nil, List.map_append, List.length_append, List.map_cons,
            List.map_nil, List.length_cons, List.length_nil]
          rw [hinv a.image_id a.category_id, hxinst, instRange_succ]
        · have hk' : cvatKey im cat (cvatStepAnn cats done rest a img).1 = false := by
            simpa using hk
          rw [List.filter_append, List.filter_cons, if_neg (by simp [hk'])]
          simpa using hinv im cat
      have hlen : ∀ im cat,
          (((done ++ [(cvatStepAnn cats done rest a img).1]) ++ rest).filter
            (cvatKey im cat)).length =
          ((done ++ a :: rest).filter (cvatKey im cat)).length := by
        intro im cat
        by_cases hka : cvatKey im cat a = true
        · have hkx : cvatKey im cat (cvatStepAnn cats done rest a img).1 = true := hka
          simp [List.filter_append, List.filter_cons, hka, hkx]
        · have hka' : cvatKey im cat a = false := by simpa using hka
          have hkx : cvatKey im cat (cvatStepAnn cats done rest a img).1 = false := hka'
          simp [List.filter_append, List.filter_cons, hka', hkx]
      have hpres' : ∀ b ∈ rest, (lookupImage imgs b.image_id).isSome = true :=
        fun b hb => hpres b (List.mem_cons_of_mem a hb)
      cases htag : (cvatStepAnn cats done rest a img).2 with
      | converted =>
        obtain ⟨st, hgo, hpost⟩ := ih (done ++ [(cvatStepAnn cats done rest a img).1])
          (c + 1) s e hnd' hpres' hinv'
        refine ⟨st, ?_, ?_⟩
        · simp only [cvatGo, himg, htag]
          exact hgo
        · intro im cat
          exact ⟨(hpost im cat).1, ((hpost im cat).2).trans (hlen im cat)⟩
      | skipped =>
        obtain ⟨st, hgo, hpost⟩ := ih (done ++ [(cvatStepAnn cats done rest a img).1])
          c (s + 1) e hnd' hpres' hinv'
        refine ⟨st, ?_, ?_⟩
        · simp only [cvatGo, himg, htag]
          exact hgo
        · intro im cat
          exact ⟨(hpost im cat).1, ((hpost im cat).2).trans (hlen im cat)⟩
      | errored =>
        obtain ⟨st, hgo, hpost⟩ := ih (done ++ [(cvatStepAnn cats done rest a img).1])
          c s (e + 1) hnd' hpres' hinv'
        refine ⟨st, ?_, ?_⟩
        · simp only [cvatGo, himg, htag]
          exact hgo
        · intro im cat
          exact ⟨(hpost im cat).1, ((hpost im cat).2).trans (hlen im cat)⟩

/-- C1 (amended): in convert_cvat_to_rle, provided the input
annotations carry pairwise-distinct ids and every annotation's owning
image exists, then for every image id and category id the instance_id
values assigned to the annotations sharing that (image_id, category_id)
pair are exactly 1..k in file order, where k is the number of
annotations in the group. -/
theorem instance_ids_complete (imgs : List CImg) (cats : List CCat) (anns : List CAnn)
    (hids : (anns.map (fun a => a.id)).Nodup)
    (hpres : ∀ a ∈ anns, (lookupImage imgs a.image_id).isSome = true) :
    ∃ st, cvatRun imgs cats anns = .ok st ∧
      ∀ im cat, ((st.anns.filter (cvatKey im cat)).map (fun a => a.instance_id)) =
        instRange ((anns.filter (cvatKey im cat)).length) := by
  obtain ⟨st, hgo, hpost⟩ := cvatGo_instance_ids imgs cats anns [] 0 0 0
    (by simpa using hids) hpres (by intro im cat; simp [instRange])
  refine ⟨st, hgo, fun im cat => ?_⟩
  have h2 := (hpost im cat).2
  simp only [List.nil_append] at h2
  rw [(hpost im cat).1, h2]

theorem instance_ids_complete_witness :
    (∃ st, cvatRun [⟨1, 4, 4⟩] [⟨1, "X"⟩]
        [⟨1, 1, 1, some (.rle [4, 4] "r"), none, none⟩,
         ⟨2, 1, 1, some (.rle [4, 4] "r"), none, none⟩] = .ok st ∧
      ∀ im cat, ((st.anns.filter (cvatKey im cat)).map (fun a => a.instance_id)) =
        instRange ((([⟨1, 1, 1, some (.rle [4, 4] "r"), none, none⟩,
          ⟨2, 1, 1, some (.rle [4, 4] "r"), none, none⟩] : List CAnn).filter
            (cvatKey im cat)).length)) ∧
    (cvatAnnsD [⟨1, 4, 4⟩] [⟨1, "X"⟩]
        [⟨1, 1, 1, some (.rle [4, 4] "r"), none, none⟩,
         ⟨2, 1, 1, some (.rle [4, 4] "r"), none, none⟩]).map (fun a => a.instance_id) =
      [some 1, some 2] :=
  ⟨instance_ids_complete [⟨1, 4, 4⟩] [⟨1, "X"⟩]
      [⟨1, 1, 1, some (.rle [4, 4] "r"), none, none⟩,
       ⟨2, 1, 1, some (.rle [4, 4] "r"), none, none⟩] (by decide) (by decide),
    by decide⟩

/-- Counterexample to C1 as stated: on a file whose second annotation
in the (image 1, category 1) group is value-equal to the first one's
post-processing state, list.index (Python dict equality is value
equality) finds the earlier position for both, so both receive
instance_id 1: the group of two annotations gets instance ids {1, 1},
not {1, 2}. -/
theorem instance_ids_cex :
    (cvatAnnsD [⟨1, 4, 4⟩] [⟨1, "X"⟩]
        [⟨7, 1, 1, some (.rle [4, 4] "r"), none, none⟩,
         ⟨7, 1, 1, some (.rle [4, 4] "r"), some "X", some 1⟩]).map (fun a => a.instance_id) =
      [some 1, some 1] ∧
    ¬(((cvatAnnsD [⟨1, 4, 4⟩] [⟨1, "X"⟩]
        [⟨7, 1, 1, some (.rle [4, 4] "r"), none, none⟩,
         ⟨7, 1, 1, some (.rle [4, 4] "r"), some "X", some 1⟩]).filter (cvatKey 1 1)).map
        (fun a => a.instance_id) = instRange 2) := by
  exact ⟨by decide, by decide⟩

/-! ## create_coco_from_agreements -/

theorem annTable_of_mapTable (imaps : Mappings) (amaps : AnnMaps) (sp : String)
    (tbl : List (Int × ImgMapEntry)) (h : mapTable imaps sp = some tbl) :
    ∃ atbl, annTable amaps sp = some atbl := by
  unfold mapTable at h
  split at h
  · exact ⟨amaps.train, rfl⟩
  · exact ⟨amaps.valT, rfl⟩
  · exact ⟨amaps.test, rfl⟩
  · exact absurd h (by simp)


theorem agStep_images (imaps : Mappings) (amaps : AnnMaps) (st : AgState) (ag : Agreement)
    (iid : Int) (sp : String) (tbl : List (Int × ImgMapEntry)) (info : ImgMapEntry)
    (hiid : ag.image_id = some iid) (haid : ag.annotation_id ≠ none)
    (hsp : resolveSplits ag = some sp) (htbl : mapTable imaps sp = some tbl)
    (hinfo : lookupMap tbl iid = some info) :
    ∃ st', agStep imaps amaps st ag = .ok st' ∧
      st'.images = (if st.processed.contains iid then st.images
        else st.images ++ [⟨iid, generateS3Url info.file_name sp, info.height, info.width, 1⟩]) ∧
      st'.processed = (if st.processed.contains iid then st.processed
        else st.processed ++ [iid]) := by
  obtain ⟨aid, haid'⟩ := Option.ne_none_iff_exists'.mp haid
  obtain ⟨atbl, hatbl⟩ := annTable_of_mapTable imaps amaps sp tbl htbl
  have hstep : agStep imaps amaps st ag =
      (match lookupMap atbl aid with
       | none =>
         .ok (if st.processed.contains iid then st
           else { st with
             images := st.images ++
               [⟨iid, generateS3Url info.file_name sp, info.height, info.width, 1⟩],
             processed := st.processed ++ [iid] })
       | some orig =>
         (fun st1 : AgState =>
           .ok { st1 with
             annotations := st1.annotations ++
               [{ id := st1.counter
                  annotation_id := aid
                  split := sp
                  image_id := iid
                  category_id := 1
                  bbox := match orig.bbox with | none => BVal.flat [] | some b => b
                  area := match orig.area with | none => 0 | some ar => ar
                  iscrowd := 0
                  segmentation := orig.segmentation }]
             counter := st1.counter + 1 })
         (if st.processed.contains iid then st
           else { st with
             images := st.images ++
               [⟨iid, generateS3Url info.file_name sp, info.height, info.width, 1⟩],
             processed := st.processed ++ [iid] })) := by
    unfold agStep
    rw [hiid, haid']
    simp only [Option.isNone_some, Bool.or_self, Bool.false_eq_true, if_false, hsp, htbl,
      hatbl, hinfo]
  cases horig : lookupMap atbl aid with
  | none =>
    rw [horig] at hstep
    refine ⟨_, hstep, ?_, ?_⟩ <;>
      (by_cases hc : st.processed.contains iid = true
       · simp only [if_pos hc]
       · simp only [if_neg hc])
  | some orig =>
    rw [horig] at hstep
    refine ⟨_, hstep, ?_, ?_⟩ <;>
      (by_cases hc : st.processed.contains iid = true
       · simp only [if_pos hc]
       · simp only [if_neg hc])

theorem processAgreements_images (imaps : Mappings) (amaps : AnnMaps) :
    ∀ (l : List Agreement) (st : AgState),
      (∀ ag ∈ l, ∃ iid sp tbl info, ag.image_id = some iid ∧ ag.annotation_id ≠ none ∧
        resolveSplits ag = some sp ∧ mapTable imaps sp = some tbl ∧
        lookupMap tbl iid = some info) →
      ((st.images.map (fun im => im.id)).Nodup) →
      (∀ i : Int, i ∈ st.images.map (fun im => im.id) ↔ i ∈ st.processed) →
      ∃ st', processAgreements imaps amaps st l = .ok st' ∧
        (st'.images.map (fun im => im.id)).Nodup ∧
        (∀ i : Int, i ∈ st'.images.map (fun im => im.id) ↔
          i ∈ st.processed ∨ i ∈ l.filterMap (fun ag => ag.image_id)) := by
  intro l
  induction l with
  | nil =>
    intro st helig hnd hmem
    exact ⟨st, rfl, hnd, fun i => by simpa using hmem i⟩
  | cons ag rest ih =>
    intro st helig hnd hmem
    obtain ⟨iid, sp, tbl, info, hiid, haid, hsp, htbl, hinfo⟩ :=
      helig ag (List.mem_cons_self ag rest)
    obtain ⟨st1, hstep, him, hpr⟩ :=
      agStep_images imaps amaps st ag iid sp tbl info hiid haid hsp htbl hinfo
    have helig' : ∀ b ∈ rest, ∃ iid sp tbl info, b.image_id = some iid ∧
        b.annotation_id ≠ none ∧ resolveSplits b = some sp ∧ mapTable imaps sp = some tbl ∧
        lookupMap tbl iid = some info :=
      fun b hb => helig b (List.mem_cons_of_mem ag hb)
    by_cases hc : st.processed.contains iid = true
    · rw [if_pos hc] at him hpr
      have hnd1 : (st1.images.map (fun im => im.id)).Nodup := by rw [him]; exact hnd
      have hmem1 : ∀ i : Int, i ∈ st1.images.map (fun im => im.id) ↔ i ∈ st1.processed := by
        intro i; rw [him, hpr]; exact hmem i
      obtain ⟨st', hrun, hnd', hmem'⟩ := ih st1 helig' hnd1 hmem1
      refine ⟨st', ?_, hnd', ?_⟩
      · show (match agStep imaps amaps st ag with
          | Except.error e => Except.error e
          | Except.ok st2 => processAgreements imaps amaps st2 rest) = Except.ok st'
        rw [hstep]
        exact hrun
      · intro i
        rw [hmem' i, hpr]
        have hii : iid ∈ st.processed := by simpa using hc
        constructor
        · rintro (h1 | h1)
          · exact Or.inl h1
          · exact Or.inr (by simp [List.filterMap_cons, hiid, h1])
        · rintro (h1 | h1)
          · exact Or.inl h1
          · rcases (by simpa [List.filterMap_cons, hiid] using h1 :
              i = iid ∨ i ∈ rest.filterMap (fun ag => ag.image_id)) with h2 | h2
            · left; rw [h2]; exact hii
            · exact Or.inr h2
    · rw [if_neg hc] at him hpr
      have hiidp : iid ∉ st.processed := fun hq => hc (by simpa using hq)
      have hiidim : iid ∉ st.images.map (fun im => im.id) := fun hq => hiidp ((hmem iid).mp hq)
      have hnd1 : (st1.images.map (fun im => im.id)).Nodup := by
        rw [him]
        simp only [List.map_append, List.map_cons, List.map_nil]
        rw [List.nodup_append]
        refine ⟨hnd, by simp, ?_⟩
        intro x hx
        simp only [List.mem_cons, List.not_mem_nil, or_false]
        intro hxeq
        exact hiidim (hxeq ▸ hx)
      have hmem1 : ∀ i : Int, i ∈ st1.images.map (fun im => im.id) ↔ i ∈ st1.processed := by
        intro i
        rw [him, hpr]
        simp only [List.map_append, List.map_cons, List.map_nil, List.mem_append,
          List.mem_cons, List.not_mem_nil, or_false]
        rw [hmem i]
      obtain ⟨st', hrun, hnd', hmem'⟩ := ih st1 helig' hnd1 hmem1
      refine ⟨st', ?_, hnd', ?_⟩
      · show (match agStep imaps amaps st ag with
          | Except.error e => Except.error e
          | Except.ok st2 => processAgreements imaps amaps st2 rest) = Except.ok st'
        rw [hstep]
        exact hrun
      · intro i
        rw [hmem' i, hpr]
        simp only [List.mem_append, List.mem_cons, List.not_mem_nil, or_false,
          List.filterMap_cons, hiid]
        constructor
        · rintro ((h1 | h1) | h1)
          · exact Or.inl h1
          · exact Or.inr (by simp [h1])
          · exact Or.inr (by simp [h1])
        · rintro (h1 | h1)
          · exact Or.inl (Or.inl h1)
          · rcases h1 with h2 | h2
            · exact Or.inl (Or.inr h2)
            · exact Or.inr h2

/-- C9 (amended): for an agreement file with at least one
consensus_result == 1 record, in which every consensus-1 record has a
non-null image_id and annotation_id, a resolvable split name and an
image mapping for that split, the images list of the emitted COCO data
has pairwise-distinct ids and contains an entry exactly for the image
ids occurring in the consensus-1 agreements: no duplicates even when
several agreements share an image, and no entry from agreements with
any other consensus_result. -/
theorem agreement_images_unique (file : AgreementFile) (imaps : Mappings) (amaps : AnnMaps)
    (hne : (file.results.filter (fun a => a.consensus_result == some 1)) ≠ [])
    (helig : ∀ ag ∈ file.results.filter (fun a => a.consensus_result == some 1),
      ∃ iid sp tbl info, ag.image_id = some iid ∧ ag.annotation_id ≠ none ∧
        resolveSplits ag = some sp ∧ mapTable imaps sp = some tbl ∧
        lookupMap tbl iid = some info) :
    ∃ res, processAgreementFile file imaps amaps = some res ∧
      (res.images.map (fun im => im.id)).Nodup ∧
      (∀ i : Int, i ∈ res.images.map (fun im => im.id) ↔ i ∈ consensusOneIds file) := by
  obtain ⟨st', hrun, hnd', hmem'⟩ := processAgreements_images imaps amaps
    (file.results.filter (fun a => a.consensus_result == some 1)) ⟨[], [], [], 0⟩
    helig (by simp) (by intro i; simp)
  have himn : st'.images ≠ [] := by
    cases hmul : file.results.filter (fun a => a.consensus_result == some 1) with
    | nil => exact absurd hmul hne
    | cons ag0 r0 =>
      obtain ⟨iid, sp, tbl, info, hiid, _, _, _, _⟩ :=
        helig ag0 (hmul ▸ List.mem_cons_self ag0 r0)
      have hin : iid ∈ st'.images.map (fun im => im.id) := by
        rw [hmem' iid, hmul]
        exact Or.inr (by simp [List.filterMap_cons, hiid])
      intro hempty
      rw [hempty] at hin
      simp at hin
  refine ⟨⟨st'.images, st'.annotations⟩, ?_, hnd', ?_⟩
  · unfold processAgreementFile
    rw [if_neg (by simpa [List.isEmpty_iff] using hne)]
    show (match processAgreements imaps amaps ⟨[], [], [], 0⟩
        (file.results.filter (fun a => a.consensus_result == some 1)) with
      | Except.error _ => none
      | Except.ok st => if st.images.isEmpty then none
          else some (AgResult.mk st.images st.annotations)) =
      some (AgResult.mk st'.images st'.annotations)
    rw [hrun]
    show (if st'.images.isEmpty then none
        else some (AgResult.mk st'.images st'.annotations)) =
      some (AgResult.mk st'.images st'.annotations)
    rw [if_neg (by simpa [List.isEmpty_iff] using himn)]
  · intro i
    show i ∈ st'.images.map (fun im => im.id) ↔ i ∈ consensusOneIds file
    rw [hmem' i]
    unfold consensusOneIds
    simp

theorem agreement_images_unique_witness :
    ∃ res, processAgreementFile
        ⟨"X", [⟨some 1, some 5, some 10, none, some "train"⟩]⟩
        ⟨[(5, ⟨"a", some 4, some 4⟩)], [], []⟩ ⟨[], [], []⟩ = some res ∧
      (res.images.map (fun im => im.id)).Nodup ∧
      (∀ i : Int, i ∈ res.images.map (fun im => im.id) ↔
        i ∈ consensusOneIds ⟨"X", [⟨some 1, some 5, some 10, none, some "train"⟩]⟩) :=
  agreement_images_unique ⟨"X", [⟨some 1, some 5, some 10, none, some "train"⟩]⟩
    ⟨[(5, ⟨"a", some 4, some 4⟩)], [], []⟩ ⟨[], [], []⟩ (by decide)
    (by
      intro ag hag
      have : ag = ⟨some 1, some 5, some 10, none, some "train"⟩ := by
        simpa using hag
      rw [this]
      exact ⟨5, "train", [(5, ⟨"a", some 4, some 4⟩)], ⟨"a", some 4, some 4⟩,
        rfl, by simp, rfl, rfl, rfl⟩)

/-- Counterexample to C9 as stated: an agreement with consensus_result
1 whose image (id 5) has a mapping for its split but whose
annotation_id is null is skipped before the image is added, so the
emitted images list has no entry for image id 5 even though id 5
occurs among the consensus-1 agreements with an image mapping. -/
theorem agreement_images_cex :
    (processAgreementFile
        ⟨"X", [⟨some 1, some 5, none, none, some "train"⟩,
               ⟨some 1, some 6, some 10, none, some "train"⟩]⟩
        ⟨[(5, ⟨"a", some 4, some 4⟩), (6, ⟨"b", some 4, some 4⟩)], [], []⟩
        ⟨[], [], []⟩).map (fun r => r.images.map (fun im => im.id)) = some [6] ∧
    consensusOneIds ⟨"X", [⟨some 1, some 5, none, none, some "train"⟩,
        ⟨some 1, some 6, some 10, none, some "train"⟩]⟩ = [5, 6] ∧
    (lookupMap [(5, (⟨"a", some 4, some 4⟩ : ImgMapEntry)), (6, ⟨"b", some 4, some 4⟩)]
      5).isSome = true := by
  refine ⟨rfl, rfl, rfl⟩

/-- Counterexample to C8 as stated: a dataset within the 150-image
limit is returned as a single chunk carrying the whole annotation list
unfiltered, so an annotation whose image_id (999) matches none of the
chunk's images still appears in the chunk, where the claim requires the
chunk's annotations to be exactly those owned by its images (here,
none). -/
theorem split_large_dataset_cex :
    splitLargeDataset [⟨1⟩] [⟨some 999⟩] 150 = [([⟨1⟩], [⟨some 999⟩], none)] ∧
    ¬([(⟨some 999⟩ : ArchAnn)] =
      [(⟨some 999⟩ : ArchAnn)].filter
        (annInChunk ([(⟨1⟩ : ArchImg)].map (fun im => im.id)))) := by
  exact ⟨rfl, by decide⟩
